import Mathlib

/-!
Verification development for the data-integrity chai assertion repository.

Part 1 models the proof-format validator rules of `src/index.js`
(`checkDataIntegrityProofFormat`): JavaScript values carried by a
document's `proof` entries, the outcome of one mocha `it` block (pass,
chai assertion failure, or an uncaught TypeError), and the individual
per-field rules, each translated from the corresponding loop body in the
source.

Part 2 models the fixture generator of `src/vc-generator/index.js`
(`generateTestData`): JavaScript object graphs with node identities so
that cloning (the `klona` dependency), in-place mutation and aliasing are
expressible, the process-wide `vcCache`, and the generator loop.
-/

set_option autoImplicit false

/-- JavaScript values as far as the validator rules inspect them:
primitives, `null`, `undefined`, objects as association lists of fields,
and arrays. -/
inductive JSVal where
  | str : String → JSVal
  | num : Int → JSVal
  | bool : Bool → JSVal
  | null : JSVal
  | undefined : JSVal
  | obj : List (String × JSVal) → JSVal
  | arr : List JSVal → JSVal

/-- First-match association-list lookup, the JS semantics of reading a
key from an object literal or `Map` in our models. -/
def alookup {α : Type} (k : String) : List (String × α) → Option α
  | [] => none
  | (k', v) :: rest => if k' = k then some v else alookup k rest

/-- Outcome of one mocha `it` body: all assertions passed, a chai
assertion failed with a message, or an uncaught `TypeError` was thrown
before any assertion could report. -/
inductive Outcome where
  | pass : Outcome
  | assertFail : String → Outcome
  | typeError : Outcome
deriving DecidableEq

/-- `null` and `undefined`: property access on these throws a
`TypeError`, and `should.exist` rejects exactly these. -/
def isNullish : JSVal → Bool
  | .null => true
  | .undefined => true
  | _ => false

/-- JavaScript property read `v[k]` for the field names the rules use:
objects yield the stored value (or `undefined`), primitives and arrays
yield `undefined` (the rules never read `length` or numeric indices). -/
def getProp : JSVal → String → JSVal
  | .obj fs, k => (alookup k fs).getD .undefined
  | _, _ => .undefined

/-- Chai `should.have.property(k)`: property existence, including
properties explicitly set to `undefined`. -/
def hasProp : JSVal → String → Bool
  | .obj fs, k => (alookup k fs).isSome
  | _, _ => false

/-- JavaScript truthiness (`if (v)`), with numbers as integers. -/
def truthy : JSVal → Bool
  | .str s => decide (s ≠ "")
  | .num n => decide (n ≠ 0)
  | .bool b => b
  | .null => false
  | .undefined => false
  | .obj _ => true
  | .arr _ => true

/-- `x.should.be.a('string')` applied to the value `v` of a field that is
known to exist: reading `.should` on `undefined` or `null` throws a
`TypeError`; otherwise the chai type assertion passes exactly on
strings. -/
def shouldBeAString (v : JSVal) (msg : String) : Outcome :=
  match v with
  | .undefined => .typeError
  | .null => .typeError
  | .str _ => .pass
  | _ => .assertFail msg

/-- The `"proof.type" field MUST be ...` rule of
`checkDataIntegrityProofFormat` (src/index.js lines 92-104): for every
proof in the proof set, assert the `type` property exists, is a string,
and that `expectedProofTypes.includes(proof.type)` is `true`. -/
def typeFieldRule (expectedProofTypes : List String) : List JSVal → Outcome
  | [] => .pass
  | proof :: rest =>
    if isNullish proof then .typeError
    else if !hasProp proof "type" then
      .assertFail "expected proof to have property type"
    else
      match getProp proof "type" with
      | .undefined => .typeError
      | .null => .typeError
      | .str s =>
        if expectedProofTypes.contains s then typeFieldRule expectedProofTypes rest
        else .assertFail "expected hasExpectedType to equal true"
      | _ => .assertFail "Expected \"proof.type\" to be a string."

/-- Modelled from the spec: `shouldBeBs58` lives in `helpers.js`, which is
not under `src/`; per the spec the check is that the string "decodes as
valid base58-btc (decodability check, not full semantic validation)",
i.e. every character is in the base58-btc alphabet
(digits and letters without 0, O, I, l). -/
def bs58Char (c : Char) : Bool :=
  ('1' ≤ c && c ≤ '9') ||
  ('A' ≤ c && c ≤ 'H') || ('J' ≤ c && c ≤ 'N') || ('P' ≤ c && c ≤ 'Z') ||
  ('a' ≤ c && c ≤ 'k') || ('m' ≤ c && c ≤ 'z')

/-- Modelled from the spec: base58-btc decodability of a string (see
`bs58Char`). The source passes the whole multibase value, including the
leading `'z'`, to this helper. -/
def shouldBeBs58 (s : String) : Bool := s.data.all bs58Char

/-- JS `String.prototype.startsWith`: the receiver's character sequence
begins with the argument's. -/
def jsStartsWith (s pre : String) : Bool := pre.data.isPrefixOf s.data

/-- One step of the callback
`proof => { const value = proof?.proofValue; return
value.startsWith(multibase) && shouldBeBs58(value); }`
(src/index.js lines 167-169): optional chaining makes `value` equal to
`undefined` for a nullish proof; `startsWith` exists only on strings, so
any non-string `value` throws a `TypeError`. -/
def multibaseStep (proof : JSVal) : Except Unit Bool :=
  let value := if isNullish proof then JSVal.undefined else getProp proof "proofValue"
  match value with
  | .str s => .ok (jsStartsWith s "z" && shouldBeBs58 s)
  | _ => .error ()

/-- `Array.prototype.some` over `multibaseStep`: left-to-right,
short-circuiting on the first `true`, propagating a thrown
`TypeError`. -/
def multibaseSome : List JSVal → Except Unit Bool
  | [] => .ok false
  | proof :: rest =>
    match multibaseStep proof with
    | .error e => .error e
    | .ok true => .ok true
    | .ok false => multibaseSome rest

/-- The `"proof.proofValue" field MUST be a multibase-encoded base58-btc
encoded value` rule (src/index.js lines 163-175):
`proofs.some(...).should.equal(true, msg)`. -/
def multibaseRule (proofs : List JSVal) : Outcome :=
  match multibaseSome proofs with
  | .error _ => .typeError
  | .ok true => .pass
  | .ok false =>
    .assertFail
      "Expected \"proof.proofValue\" to be multibase-encoded base58-btc value."

/-- The `if "proof.id" field exists, it MUST be a valid URL` rule
(src/index.js lines 67-83). The guard is JS truthiness of `proof.id`,
not presence. `isURL` stands for "`new URL(·)` does not throw" (the URL
parser is a JS builtin, kept abstract); the truthy non-string case is
approximated as the URL constructor outcome on the coerced value and is
not exercised by any claim below. -/
def idRule (isURL : String → Bool) : List JSVal → Outcome
  | [] => .pass
  | proof :: rest =>
    if isNullish proof then .typeError
    else if truthy (getProp proof "id") then
      match getProp proof "id" with
      | .str s =>
        if isURL s then idRule isURL rest
        else .assertFail "Expected \"proof.id\" to be a URL."
      | _ => .assertFail "Expected \"proof.id\" to be a URL."
    else idRule isURL rest

/-- The `if "proof.domain" field exists, it MUST be a string` rule
(src/index.js lines 176-184); the guard is JS truthiness of
`proof.domain`. -/
def domainRule : List JSVal → Outcome
  | [] => .pass
  | proof :: rest =>
    if isNullish proof then .typeError
    else if truthy (getProp proof "domain") then
      match shouldBeAString (getProp proof "domain")
          "Expected \"proof.domain\" to be a string." with
      | .pass => domainRule rest
      | o => o
    else domainRule rest

/-- The `if "proof.challenge" field exists, it MUST be a string` rule
(src/index.js lines 185-197): under the truthiness guard on
`proof.challenge`, first `should.exist(proof.domain)` (fails exactly on
nullish `domain`, naming the missing dependency), then the string
assertion on `proof.challenge`. -/
def challengeRule : List JSVal → Outcome
  | [] => .pass
  | proof :: rest =>
    if isNullish proof then .typeError
    else if truthy (getProp proof "challenge") then
      if isNullish (getProp proof "domain") then
        .assertFail "Expected \"proof.domain\" to be specified."
      else
        match shouldBeAString (getProp proof "challenge")
            "Expected \"proof.challenge\" to be a string." with
        | .pass => challengeRule rest
        | o => o
    else challengeRule rest

/-- Character class `[0-9]` of the `created` regex. -/
def isDigitC (c : Char) : Bool := decide ('0' ≤ c ∧ c ≤ '9')

/-- Regex alternative `0[1-9]|1[0-2]` (months). -/
def monthB (a b : Char) : Bool :=
  decide ((a = '0' ∧ '1' ≤ b ∧ b ≤ '9') ∨ (a = '1' ∧ '0' ≤ b ∧ b ≤ '2'))

/-- Regex alternative `0[1-9]|[12][0-9]|3[01]` (days). -/
def dayB (a b : Char) : Bool :=
  decide ((a = '0' ∧ '1' ≤ b ∧ b ≤ '9') ∨
    ('1' ≤ a ∧ a ≤ '2' ∧ '0' ≤ b ∧ b ≤ '9') ∨
    (a = '3' ∧ '0' ≤ b ∧ b ≤ '1'))

/-- Regex alternative `[01][0-9]|2[0-3]` (hours, also offset hours). -/
def hourB (a b : Char) : Bool :=
  decide (('0' ≤ a ∧ a ≤ '1' ∧ '0' ≤ b ∧ b ≤ '9') ∨ (a = '2' ∧ '0' ≤ b ∧ b ≤ '3'))

/-- Regex class pair `[0-5][0-9]` (minutes, also offset minutes). -/
def minuteB (a b : Char) : Bool :=
  decide ('0' ≤ a ∧ a ≤ '5' ∧ '0' ≤ b ∧ b ≤ '9')

/-- Regex alternative `[0-5][0-9]|60` (seconds with leap second). -/
def secondB (a b : Char) : Bool := minuteB a b || decide (a = '6' ∧ b = '0')

/-- Regex tail `(Z|(\+|-)([01][0-9]|2[0-3]):([0-5][0-9]))$`; the regex
carries the `'i'` flag, so the literal `Z` also matches `z`. -/
def matchZone : List Char → Bool
  | [z] => decide (z = 'Z' ∨ z = 'z')
  | [sg, a, b, cl, c, d] =>
    decide ((sg = '+' ∨ sg = '-') ∧ cl = ':') && hourB a b && minuteB c d
  | _ => false

/-- Regex tail `(\.[0-9]+)?` followed by the zone: an optional fraction
(dot plus at least one digit; the digit run is maximal, which agrees
with the regex because no zone starts with a digit) and then the
mandatory zone. -/
def matchTail (cs : List Char) : Bool :=
  match cs with
  | c :: rest =>
    if c = '.' then
      decide (rest.takeWhile isDigitC ≠ []) && matchZone (rest.dropWhile isDigitC)
    else matchZone cs
  | [] => false

/-- The full anchored `created` regex of src/index.js lines 122-126:
`^(\d{4})-(0[1-9]|1[0-2])-(0[1-9]|[12][0-9]|3[01])T([01][0-9]|2[0-3]):([0-5][0-9]):([0-5][0-9]|60)(\.[0-9]+)?(Z|(\+|-)([01][0-9]|2[0-3]):([0-5][0-9]))$`
compiled with the `'i'` flag (so the literals `T` and `Z` also match
`t` and `z`). -/
def matchCreated : List Char → Bool
  | y1 :: y2 :: y3 :: y4 :: s1 :: m1 :: m2 :: s2 :: d1 :: d2 :: t ::
      h1 :: h2 :: s3 :: i1 :: i2 :: s4 :: e1 :: e2 :: rest =>
    isDigitC y1 && isDigitC y2 && isDigitC y3 && isDigitC y4 &&
    decide (s1 = '-') && monthB m1 m2 && decide (s2 = '-') && dayB d1 d2 &&
    decide (t = 'T' ∨ t = 't') &&
    hourB h1 h2 && decide (s3 = ':') && minuteB i1 i2 && decide (s4 = ':') &&
    secondB e1 e2 && matchTail rest
  | _ => false

/-- `RegExp.prototype.test` of the `created` regex on a string. -/
def dateRegexMatch (s : String) : Bool := matchCreated s.data

/-- The `"proof.created" field MUST exist and be a valid XMLSCHEMA-11
datetime value` rule (src/index.js lines 116-129): assert the property
exists, then `proof.created.should.match(dateRegex)`. Chai's `match` on
a non-string value coerces it; the coercion is approximated as an
assertion failure here and is not exercised by any claim below. -/
def createdRule : List JSVal → Outcome
  | [] => .pass
  | proof :: rest =>
    if isNullish proof then .typeError
    else if !hasProp proof "created" then
      .assertFail "expected proof to have property created"
    else
      match getProp proof "created" with
      | .undefined => .typeError
      | .null => .typeError
      | .str s =>
        if dateRegexMatch s then createdRule rest
        else .assertFail "Expected created to match the datetime regular expression."
      | _ => .assertFail "Expected created to match the datetime regular expression."

/-- Numeric value of a two-digit character pair. -/
def pairVal (a b : Char) : Nat := (a.toNat - 48) * 10 + (b.toNat - 48)

/-- A character is a decimal digit (claim-side wording). -/
def digitChar (c : Char) : Prop := 48 ≤ c.toNat ∧ c.toNat ≤ 57

/-- Claim-side zone: either the designator `Z` (`upper = true` demands the
upper-case letter only, `upper = false` also allows `z`), or a signed
offset `±HH:MM` with hours at most 23 and minutes at most 59. -/
def zoneSpec (upper : Bool) (zs : List Char) : Prop :=
  (∃ z, zs = [z] ∧ (z = 'Z' ∨ (¬ upper = true ∧ z = 'z'))) ∨
  (∃ sg a b c d, zs = [sg, a, b, ':', c, d] ∧ (sg = '+' ∨ sg = '-') ∧
    digitChar a ∧ digitChar b ∧ pairVal a b ≤ 23 ∧
    digitChar c ∧ digitChar d ∧ pairVal c d ≤ 59)

/-- Claim-side optional fractional-seconds part: empty, or a dot followed
by at least one digit. -/
def fracSpec (fr : List Char) : Prop :=
  fr = [] ∨ (∃ ds, fr = '.' :: ds ∧ ds ≠ [] ∧ ∀ c ∈ ds, digitChar c)

/-- Claim-side form of a `created` value, stated in the claim's terms: a
string `YYYY-MM-DDTHH:MM:SS` with a 4-digit year, month 01-12, day
01-31, hour at most 23, minute at most 59, a seconds field allowing the
leap-second value 60, an optional fractional-seconds part and a
mandatory zone. `upper = true` is the claim as written (`T` separator,
`Z` designator); `upper = false` is the amended, case-insensitive
reading. -/
def createdSpecL (upper : Bool) (cs : List Char) : Prop :=
  ∃ y1 y2 y3 y4 m1 m2 d1 d2 t h1 h2 i1 i2 e1 e2 fr zs,
    cs = y1 :: y2 :: y3 :: y4 :: '-' :: m1 :: m2 :: '-' :: d1 :: d2 :: t ::
      h1 :: h2 :: ':' :: i1 :: i2 :: ':' :: e1 :: e2 :: (fr ++ zs) ∧
    digitChar y1 ∧ digitChar y2 ∧ digitChar y3 ∧ digitChar y4 ∧
    digitChar m1 ∧ digitChar m2 ∧ 1 ≤ pairVal m1 m2 ∧ pairVal m1 m2 ≤ 12 ∧
    digitChar d1 ∧ digitChar d2 ∧ 1 ≤ pairVal d1 d2 ∧ pairVal d1 d2 ≤ 31 ∧
    (t = 'T' ∨ (¬ upper = true ∧ t = 't')) ∧
    digitChar h1 ∧ digitChar h2 ∧ pairVal h1 h2 ≤ 23 ∧
    digitChar i1 ∧ digitChar i2 ∧ pairVal i1 i2 ≤ 59 ∧
    digitChar e1 ∧ digitChar e2 ∧ pairVal e1 e2 ≤ 60 ∧
    fracSpec fr ∧ zoneSpec upper zs

/-- Claim-side form of a `created` value on a string (see
`createdSpecL`). -/
def createdSpec (upper : Bool) (s : String) : Prop := createdSpecL upper s.data

theorem charEq_toNat (a b : Char) : a = b ↔ a.toNat = b.toNat := by
  rw [Char.le_antisymm_iff, Nat.le_antisymm_iff]
  exact Iff.rfl

theorem charLe_toNat (a b : Char) : a ≤ b ↔ a.toNat ≤ b.toNat := Iff.rfl

theorem toNat_c0 : ('0' : Char).toNat = 48 := rfl
theorem toNat_c1 : ('1' : Char).toNat = 49 := rfl
theorem toNat_c2 : ('2' : Char).toNat = 50 := rfl
theorem toNat_c3 : ('3' : Char).toNat = 51 := rfl
theorem toNat_c5 : ('5' : Char).toNat = 53 := rfl
theorem toNat_c6 : ('6' : Char).toNat = 54 := rfl
theorem toNat_c9 : ('9' : Char).toNat = 57 := rfl

theorem isDigitC_iff (c : Char) : isDigitC c = true ↔ digitChar c := by
  simp only [isDigitC, decide_eq_true_eq, digitChar, charLe_toNat]
  constructor
  · intro h
    exact ⟨h.1, h.2⟩
  · intro h
    exact ⟨h.1, h.2⟩

theorem monthB_iff (a b : Char) :
    monthB a b = true ↔
      digitChar a ∧ digitChar b ∧ 1 ≤ pairVal a b ∧ pairVal a b ≤ 12 := by
  simp only [monthB, decide_eq_true_eq, digitChar, pairVal, charEq_toNat, charLe_toNat,
    toNat_c0, toNat_c1, toNat_c2, toNat_c3, toNat_c5, toNat_c6, toNat_c9]
  omega

theorem dayB_iff (a b : Char) :
    dayB a b = true ↔
      digitChar a ∧ digitChar b ∧ 1 ≤ pairVal a b ∧ pairVal a b ≤ 31 := by
  simp only [dayB, decide_eq_true_eq, digitChar, pairVal, charEq_toNat, charLe_toNat,
    toNat_c0, toNat_c1, toNat_c2, toNat_c3, toNat_c5, toNat_c6, toNat_c9]
  omega

theorem hourB_iff (a b : Char) :
    hourB a b = true ↔ digitChar a ∧ digitChar b ∧ pairVal a b ≤ 23 := by
  simp only [hourB, decide_eq_true_eq, digitChar, pairVal, charEq_toNat, charLe_toNat,
    toNat_c0, toNat_c1, toNat_c2, toNat_c3, toNat_c5, toNat_c6, toNat_c9]
  omega

theorem minuteB_iff (a b : Char) :
    minuteB a b = true ↔ digitChar a ∧ digitChar b ∧ pairVal a b ≤ 59 := by
  simp only [minuteB, decide_eq_true_eq, digitChar, pairVal, charEq_toNat, charLe_toNat,
    toNat_c0, toNat_c1, toNat_c2, toNat_c3, toNat_c5, toNat_c6, toNat_c9]
  omega

theorem secondB_iff (a b : Char) :
    secondB a b = true ↔ digitChar a ∧ digitChar b ∧ pairVal a b ≤ 60 := by
  simp only [secondB, minuteB, Bool.or_eq_true, decide_eq_true_eq, digitChar,
    pairVal, charEq_toNat, charLe_toNat,
    toNat_c0, toNat_c1, toNat_c2, toNat_c3, toNat_c5, toNat_c6, toNat_c9]
  omega

theorem matchZone_iff (zs : List Char) : matchZone zs = true ↔ zoneSpec false zs := by
  constructor
  · intro h
    rw [matchZone.eq_def] at h
    split at h
    · rename_i z
      rw [decide_eq_true_eq] at h
      exact Or.inl ⟨z, rfl, by simpa using h⟩
    · rename_i sg a b cl c d
      simp only [Bool.and_eq_true, decide_eq_true_eq, hourB_iff, minuteB_iff,
        and_assoc] at h
      obtain ⟨hsg, hcl, ha, hb, hab, hc, hd, hcd⟩ := h
      subst hcl
      exact Or.inr ⟨sg, a, b, c, d, rfl, hsg, ha, hb, hab, hc, hd, hcd⟩
    · exact absurd h (by simp)
  · intro h
    rcases h with ⟨z, rfl, hz⟩ | ⟨sg, a, b, c, d, rfl, hsg, ha, hb, hab, hc, hd, hcd⟩
    · have hz' : z = 'Z' ∨ z = 'z' := by simpa using hz
      simp only [matchZone, decide_eq_true_eq]
      exact hz'
    · simp only [matchZone, Bool.and_eq_true, decide_eq_true_eq]
      exact ⟨⟨⟨hsg, trivial⟩, (hourB_iff a b).mpr ⟨ha, hb, hab⟩⟩,
        (minuteB_iff c d).mpr ⟨hc, hd, hcd⟩⟩

theorem zone_head_ne_dot (zs : List Char) (h : zoneSpec false zs) :
    ∀ z rest, zs = z :: rest → z ≠ '.' := by
  intro z rest hzs
  rcases h with ⟨z', hz', hor⟩ | ⟨sg, a, b, c, d, hz', hsg, -⟩
  · rw [hz'] at hzs
    injection hzs.symm with h1 h2
    subst h1
    rcases hor with rfl | ⟨-, rfl⟩ <;> decide
  · rw [hz'] at hzs
    injection hzs.symm with h1 h2
    subst h1
    rcases hsg with rfl | rfl <;> decide

theorem zone_head_not_digit (zs : List Char) (h : zoneSpec false zs) :
    ∀ z rest, zs = z :: rest → isDigitC z = false := by
  intro z rest hzs
  rcases h with ⟨z', hz', hor⟩ | ⟨sg, a, b, c, d, hz', hsg, -⟩
  · rw [hz'] at hzs
    injection hzs.symm with h1 h2
    subst h1
    rcases hor with rfl | ⟨-, rfl⟩ <;> decide
  · rw [hz'] at hzs
    injection hzs.symm with h1 h2
    subst h1
    rcases hsg with rfl | rfl <;> decide

theorem takeWhile_all_append (p : Char → Bool) (ds zs : List Char)
    (hds : ∀ c ∈ ds, p c = true)
    (hzs : ∀ z rest, zs = z :: rest → p z = false) :
    (ds ++ zs).takeWhile p = ds ∧ (ds ++ zs).dropWhile p = zs := by
  induction ds with
  | nil =>
    cases zs with
    | nil => simp
    | cons z rest => simp [List.takeWhile_cons, List.dropWhile_cons, hzs z rest rfl]
  | cons d ds ih =>
    have hd : p d = true := hds d (List.mem_cons_self d ds)
    have ih' := ih (fun c hc => hds c (List.mem_cons_of_mem d hc))
    simp [List.takeWhile_cons, List.dropWhile_cons, hd, ih'.1, ih'.2]

theorem matchTail_iff (cs : List Char) :
    matchTail cs = true ↔ ∃ fr zs, cs = fr ++ zs ∧ fracSpec fr ∧ zoneSpec false zs := by
  constructor
  · intro h
    cases cs with
    | nil => simp [matchTail] at h
    | cons c rest =>
      simp only [matchTail] at h
      by_cases hc : c = '.'
      · subst hc
        rw [if_pos rfl, Bool.and_eq_true, decide_eq_true_eq] at h
        obtain ⟨hne, hz⟩ := h
        refine ⟨'.' :: rest.takeWhile isDigitC, rest.dropWhile isDigitC, ?_, ?_, ?_⟩
        · simp [List.takeWhile_append_dropWhile]
        · exact Or.inr ⟨rest.takeWhile isDigitC, rfl, hne,
            fun ch hch => (isDigitC_iff ch).mp (List.mem_takeWhile_imp hch)⟩
        · exact (matchZone_iff _).mp hz
      · rw [if_neg hc] at h
        exact ⟨[], c :: rest, rfl, Or.inl rfl, (matchZone_iff _).mp h⟩
  · rintro ⟨fr, zs, rfl, hfr, hzs⟩
    rcases hfr with rfl | ⟨ds, rfl, hne, hds⟩
    · rw [List.nil_append]
      cases zs with
      | nil => rcases hzs with ⟨z, hz, -⟩ | ⟨sg, a, b, c, d, hz, -⟩ <;> simp at hz
      | cons z rest =>
        simp only [matchTail]
        rw [if_neg (zone_head_ne_dot _ hzs z rest rfl)]
        exact (matchZone_iff _).mpr hzs
    · rw [List.cons_append]
      simp only [matchTail]
      rw [if_pos trivial]
      have htw := takeWhile_all_append isDigitC ds zs
        (fun ch hch => (isDigitC_iff ch).mpr (hds ch hch))
        (zone_head_not_digit zs hzs)
      rw [Bool.and_eq_true, decide_eq_true_eq, htw.1, htw.2]
      exact ⟨hne, (matchZone_iff _).mpr hzs⟩

theorem matchCreated_iff (cs : List Char) :
    matchCreated cs = true ↔ createdSpecL false cs := by
  constructor
  · intro h
    rw [matchCreated.eq_def] at h
    split at h
    · rename_i y1 y2 y3 y4 s1 m1 m2 s2 d1 d2 t h1 h2 s3 i1 i2 s4 e1 e2 rest
      simp only [Bool.and_eq_true, decide_eq_true_eq, isDigitC_iff, monthB_iff,
        dayB_iff, hourB_iff, minuteB_iff, secondB_iff, and_assoc] at h
      obtain ⟨hy1, hy2, hy3, hy4, hs1, hm1, hm2, hmlo, hmhi, hs2, hd1, hd2, hdlo,
        hdhi, ht, hh1, hh2, hhhi, hs3, hi1, hi2, hihi, hs4, he1, he2, hehi, htail⟩ := h
      subst hs1
      subst hs2
      subst hs3
      subst hs4
      obtain ⟨fr, zs, hrest, hfr, hzs⟩ := (matchTail_iff rest).mp htail
      subst hrest
      have ht' : t = 'T' ∨ (¬ false = true ∧ t = 't') := by simpa using ht
      exact ⟨y1, y2, y3, y4, m1, m2, d1, d2, t, h1, h2, i1, i2, e1, e2, fr, zs,
        rfl, hy1, hy2, hy3, hy4, hm1, hm2, hmlo, hmhi, hd1, hd2, hdlo, hdhi,
        ht', hh1, hh2, hhhi, hi1, hi2, hihi, he1, he2, hehi, hfr, hzs⟩
    · exact absurd h (by simp)
  · rintro ⟨y1, y2, y3, y4, m1, m2, d1, d2, t, h1, h2, i1, i2, e1, e2, fr, zs,
      rfl, hy1, hy2, hy3, hy4, hm1, hm2, hmlo, hmhi, hd1, hd2, hdlo, hdhi,
      ht, hh1, hh2, hhhi, hi1, hi2, hihi, he1, he2, hehi, hfr, hzs⟩
    have ht' : t = 'T' ∨ t = 't' := by simpa using ht
    simp only [matchCreated, Bool.and_eq_true, decide_eq_true_eq, isDigitC_iff,
      monthB_iff, dayB_iff, hourB_iff, minuteB_iff, secondB_iff, and_assoc,
      true_and, and_true]
    exact ⟨hy1, hy2, hy3, hy4, hm1, hm2, hmlo, hmhi, hd1, hd2, hdlo, hdhi, ht',
      hh1, hh2, hhhi, hi1, hi2, hihi, he1, he2, hehi,
      (matchTail_iff _).mpr ⟨fr, zs, rfl, hfr, hzs⟩⟩

theorem dateRegexMatch_iff (s : String) :
    dateRegexMatch s = true ↔ createdSpec false s :=
  matchCreated_iff s.data

/-- Claim-side per-proof property for the type rule: the `type` field
holds a string that is a member of the expected set. -/
def hasStringTypeIn (expected : List String) (p : JSVal) : Bool :=
  match getProp p "type" with
  | .str s => expected.contains s
  | _ => false

/-- A JS value that is a string. -/
def isStrVal : JSVal → Bool
  | .str _ => true
  | _ => false

theorem typeFieldRule_cons_of_ok (expected : List String) (p : JSVal)
    (rest : List JSVal) (h : hasStringTypeIn expected p = true) :
    typeFieldRule expected (p :: rest) = typeFieldRule expected rest := by
  cases p with
  | obj fs =>
    rcases halk : alookup "type" fs with - | v
    · simp [hasStringTypeIn, getProp, halk] at h
    · cases v with
      | str s =>
        have hmem : s ∈ expected := by
          simpa [hasStringTypeIn, getProp, halk] using h
        simp [typeFieldRule, isNullish, hasProp, getProp, halk, hmem]
      | num n => simp [hasStringTypeIn, getProp, halk] at h
      | bool b => simp [hasStringTypeIn, getProp, halk] at h
      | null => simp [hasStringTypeIn, getProp, halk] at h
      | undefined => simp [hasStringTypeIn, getProp, halk] at h
      | obj gs => simp [hasStringTypeIn, getProp, halk] at h
      | arr es => simp [hasStringTypeIn, getProp, halk] at h
  | str s => simp [hasStringTypeIn, getProp] at h
  | num n => simp [hasStringTypeIn, getProp] at h
  | bool b => simp [hasStringTypeIn, getProp] at h
  | null => simp [hasStringTypeIn, getProp] at h
  | undefined => simp [hasStringTypeIn, getProp] at h
  | arr es => simp [hasStringTypeIn, getProp] at h

theorem typeFieldRule_cons_of_bad (expected : List String) (p : JSVal)
    (rest : List JSVal) (h : hasStringTypeIn expected p = false) :
    typeFieldRule expected (p :: rest) ≠ .pass := by
  cases p with
  | obj fs =>
    rcases halk : alookup "type" fs with - | v
    · simp [typeFieldRule, isNullish, hasProp, halk]
    · cases v with
      | str s =>
        have hmem : s ∉ expected := by
          intro hmem
          rw [hasStringTypeIn, getProp, halk] at h
          simp [hmem] at h
        simp [typeFieldRule, isNullish, hasProp, getProp, halk, hmem]
      | num n => simp [typeFieldRule, isNullish, hasProp, getProp, halk]
      | bool b => simp [typeFieldRule, isNullish, hasProp, getProp, halk]
      | null => simp [typeFieldRule, isNullish, hasProp, getProp, halk]
      | undefined => simp [typeFieldRule, isNullish, hasProp, getProp, halk]
      | obj gs => simp [typeFieldRule, isNullish, hasProp, getProp, halk]
      | arr es => simp [typeFieldRule, isNullish, hasProp, getProp, halk]
  | str s => simp [typeFieldRule, isNullish, hasProp]
  | num n => simp [typeFieldRule, isNullish, hasProp]
  | bool b => simp [typeFieldRule, isNullish, hasProp]
  | null => simp [typeFieldRule, isNullish]
  | undefined => simp [typeFieldRule, isNullish]
  | arr es => simp [typeFieldRule, isNullish, hasProp]

/-- C4: the proof-type validation rule passes a document if and only if
every proof in its proof set has a `type` field that is a string and a
member of the caller-supplied `expectedProofTypes` (`['DataIntegrityProof']`
by default); and membership, not equality with the comma-joined expected
string, decides the outcome: with `expectedProofTypes = ["A", "B"]` a
proof whose type is `"B"` passes although `"B"` differs from the joined
string `"A,B"`. -/
theorem typeFieldRule_pass_iff :
    (∀ (expected : List String) (proofs : List JSVal),
      typeFieldRule expected proofs = .pass ↔
        ∀ p ∈ proofs, hasStringTypeIn expected p = true) ∧
    (typeFieldRule ["A", "B"] [JSVal.obj [("type", JSVal.str "B")]] = .pass ∧
      "B" ≠ String.intercalate "," ["A", "B"]) := by
  refine ⟨fun expected proofs => ?_, by decide, by decide⟩
  induction proofs with
  | nil => simp [typeFieldRule]
  | cons p rest ih =>
    rcases hp : hasStringTypeIn expected p with - | -
    · simp only [List.mem_cons, forall_eq_or_imp, hp]
      simp [typeFieldRule_cons_of_bad expected p rest hp]
    · rw [typeFieldRule_cons_of_ok expected p rest hp, ih]
      simp [hp]

/-- C9: the multibase proofValue rule, applied to a proof set whose
examined proof exists but lacks a `proofValue` field, does not produce an
ordinary assertion failure: `value.startsWith` runs on `undefined`
before any type guard, so the `it` body throws a `TypeError`. -/
theorem multibaseRule_typeError_without_proofValue :
    multibaseRule [JSVal.obj [("type", JSVal.str "DataIntegrityProof")]] =
      .typeError := rfl

theorem getProp_str_not_nullish (p : JSVal) (fld s : String)
    (h : getProp p fld = JSVal.str s) : isNullish p = false := by
  cases p <;> simp_all [getProp, isNullish]

/-- C10: the conditional rules for optional proof fields test truthiness
rather than presence: whenever the `id` (resp. `domain`, `challenge`)
field of every proof is present but equal to the empty string, the
corresponding rule skips its body and passes — for the challenge rule
even the domain-dependency check is skipped, with no assumption on
`domain` at all. -/
theorem optionalRules_skip_empty_strings :
    (∀ (isURL : String → Bool) (proofs : List JSVal),
      (∀ p ∈ proofs, getProp p "id" = JSVal.str "") →
        idRule isURL proofs = .pass) ∧
    (∀ proofs : List JSVal,
      (∀ p ∈ proofs, getProp p "domain" = JSVal.str "") →
        domainRule proofs = .pass) ∧
    (∀ proofs : List JSVal,
      (∀ p ∈ proofs, getProp p "challenge" = JSVal.str "") →
        challengeRule proofs = .pass) := by
  refine ⟨fun isURL proofs => ?_, fun proofs => ?_, fun proofs => ?_⟩ <;>
  · induction proofs with
    | nil => intro h; rfl
    | cons p rest ih =>
      intro h
      have h0 := h p (List.mem_cons_self p rest)
      have hn := getProp_str_not_nullish p _ _ h0
      have ih' := ih (fun q hq => h q (List.mem_cons_of_mem p hq))
      simp [idRule, domainRule, challengeRule, hn, h0, truthy, ih']

/-- C7 counterexample: a proof whose `challenge` field is present (as the
empty string) while `domain` is absent nevertheless passes the challenge
rule, because the source guards the whole check with JS truthiness of
`proof.challenge`; this refutes the claim for field presence. -/
theorem challengeRule_counterexample :
    hasProp (JSVal.obj [("challenge", JSVal.str "")]) "challenge" = true ∧
    hasProp (JSVal.obj [("challenge", JSVal.str "")]) "domain" = false ∧
    challengeRule [JSVal.obj [("challenge", JSVal.str "")]] = .pass :=
  ⟨rfl, rfl, rfl⟩

/-- Per-proof success of the challenge rule's loop body: the proof is not
nullish, and either its `challenge` is falsy or its `domain` is present
(non-nullish) and its `challenge` is a string. -/
def challengeStepOk (q : JSVal) : Bool :=
  !isNullish q &&
    (!truthy (getProp q "challenge") ||
      (!isNullish (getProp q "domain") && isStrVal (getProp q "challenge")))

theorem shouldBeAString_of_isStr (v : JSVal) (m : String)
    (h : isStrVal v = true) : shouldBeAString v m = .pass := by
  cases v <;> simp_all [isStrVal, shouldBeAString]

theorem challengeRule_cons_ok (q : JSVal) (rest : List JSVal)
    (h : challengeStepOk q = true) :
    challengeRule (q :: rest) = challengeRule rest := by
  simp only [challengeStepOk, Bool.and_eq_true, Bool.or_eq_true,
    Bool.not_eq_true'] at h
  obtain ⟨hq, h2⟩ := h
  rcases h2 with hch | ⟨hdom, hstr⟩
  · simp [challengeRule, hq, hch]
  · by_cases hch : truthy (getProp q "challenge") = true
    · simp [challengeRule, hq, hch, hdom, shouldBeAString_of_isStr _ _ hstr]
    · simp only [Bool.not_eq_true] at hch
      simp [challengeRule, hq, hch]

/-- C7 amended: for every proof whose `challenge` field is truthy (for
example any non-empty string) while `domain` is nullish (absent), and
which follows only proofs that pass the challenge rule's per-proof
checks, the rule fails with a reason naming the missing `proof.domain`
dependency. (The original claim said "present"; a present-but-falsy
`challenge`, such as the empty string, is skipped — see the
counterexample.) -/
theorem challenge_requires_domain (pre : List JSVal) (p : JSVal)
    (post : List JSVal)
    (hpre : ∀ q ∈ pre, challengeStepOk q = true)
    (hch : truthy (getProp p "challenge") = true)
    (hdom : isNullish (getProp p "domain") = true) :
    ∃ msg, challengeRule (pre ++ p :: post) = .assertFail msg ∧
      "domain".data <:+: msg.data := by
  induction pre with
  | nil =>
    refine ⟨"Expected \"proof.domain\" to be specified.", ?_, by decide⟩
    have hq : isNullish p = false := by
      cases p <;> simp_all [getProp, truthy, isNullish]
    simp [challengeRule, hq, hch, hdom]
  | cons q pre ih =>
    rw [List.cons_append,
      challengeRule_cons_ok q _ (hpre q (List.mem_cons_self q pre))]
    exact ih (fun r hr => hpre r (List.mem_cons_of_mem q hr))

theorem challenge_requires_domain_witness :
    ∃ msg, challengeRule [JSVal.obj [("challenge", JSVal.str "abc")]] =
      .assertFail msg ∧ "domain".data <:+: msg.data :=
  challenge_requires_domain [] (JSVal.obj [("challenge", JSVal.str "abc")]) []
    (fun q hq => absurd hq (List.not_mem_nil q)) (by decide) rfl

/-- Code-side per-proof success of the multibase callback: `proofValue`
is a string beginning with `'z'` whose whole text passes the base58
check (the source passes the entire value, prefix included, to
`shouldBeBs58`). -/
def goodPV (p : JSVal) : Bool :=
  match getProp p "proofValue" with
  | .str s => jsStartsWith s "z" && shouldBeBs58 s
  | _ => false

/-- Claim-side per-proof property: `proofValue` is a string beginning
with `'z'` whose remainder decodes as base58-btc. -/
def claimGoodPV (p : JSVal) : Bool :=
  match getProp p "proofValue" with
  | .str s => jsStartsWith s "z" && (s.data.drop 1).all bs58Char
  | _ => false

/-- C5 counterexample: a proof set whose first proof lacks `proofValue`
and whose second proof carries a valid multibase base58-btc value: at
least one proof satisfies the claim-side property, yet the rule does not
pass (the `some` callback throws a `TypeError` on the first proof),
refuting the claimed "if and only if". -/
theorem multibaseRule_counterexample :
    List.any [JSVal.obj [], JSVal.obj [("proofValue", JSVal.str "z6Mk")]]
      claimGoodPV = true ∧
    multibaseRule [JSVal.obj [], JSVal.obj [("proofValue", JSVal.str "z6Mk")]] ≠
      .pass :=
  ⟨by decide, by decide⟩

theorem multibaseStep_eq (q : JSVal) :
    multibaseStep q =
      (match getProp q "proofValue" with
        | .str s => Except.ok (jsStartsWith s "z" && shouldBeBs58 s)
        | _ => Except.error ()) := by
  cases q <;> rfl

theorem goodPV_of_step_ok (q : JSVal) (b : Bool)
    (h : multibaseStep q = .ok b) : goodPV q = b := by
  rw [multibaseStep_eq] at h
  cases hv : getProp q "proofValue" <;> rw [hv] at h <;>
    simp_all [goodPV, hv]

theorem isStr_of_step_ok (q : JSVal) (b : Bool)
    (h : multibaseStep q = .ok b) :
    isStrVal (getProp q "proofValue") = true := by
  rw [multibaseStep_eq] at h
  cases hv : getProp q "proofValue" <;> rw [hv] at h <;>
    simp_all [isStrVal]

theorem notStr_of_step_error (q : JSVal)
    (h : multibaseStep q = .error ()) :
    isStrVal (getProp q "proofValue") = false := by
  rw [multibaseStep_eq] at h
  cases hv : getProp q "proofValue" <;> rw [hv] at h <;>
    simp_all [isStrVal]

theorem goodPV_isStr (q : JSVal) (h : goodPV q = true) :
    isStrVal (getProp q "proofValue") = true := by
  rw [goodPV] at h
  cases hv : getProp q "proofValue" <;> rw [hv] at h <;>
    simp_all [isStrVal]

/-- C5 amended: the multibase rule passes if and only if some proof
satisfies the code-side property (string `proofValue` with `'z'` prefix
and base58 body) and every proof before it carries a string
`proofValue` (a non-string `proofValue` reached earlier throws a
`TypeError` instead); and a `proofValue` string not beginning with `'z'`
makes the callback return `false` for that proof even if its remainder
is valid base58. -/
theorem multibaseRule_pass_iff :
    (∀ proofs : List JSVal,
      multibaseRule proofs = .pass ↔
        ∃ pre p post, proofs = pre ++ p :: post ∧ goodPV p = true ∧
          ∀ q ∈ pre, isStrVal (getProp q "proofValue") = true) ∧
    (∀ (s : String) (p : JSVal), jsStartsWith s "z" = false →
      getProp p "proofValue" = JSVal.str s → multibaseStep p = .ok false) := by
  constructor
  · intro proofs
    induction proofs with
    | nil =>
      constructor
      · intro h
        exact absurd h (by simp [multibaseRule, multibaseSome])
      · rintro ⟨pre, p, post, hsplit, -, -⟩
        rcases pre with - | ⟨a, pre⟩ <;> simp at hsplit
    | cons q rest ih =>
      cases hstep : multibaseStep q with
      | error e =>
        have hrule : multibaseRule (q :: rest) = .typeError := by
          simp [multibaseRule, multibaseSome, hstep]
        have hq := notStr_of_step_error q hstep
        rw [hrule]
        constructor
        · intro h
          exact absurd h (by simp)
        · rintro ⟨pre, p, post, hsplit, hgood, hpre⟩
          rcases pre with - | ⟨a, pre⟩
          · rw [List.nil_append] at hsplit
            injection hsplit with h1 h2
            subst h1
            rw [goodPV_isStr q hgood] at hq
            exact absurd hq (by simp)
          · rw [List.cons_append] at hsplit
            injection hsplit with h1 h2
            subst h1
            rw [hpre q (List.mem_cons_self q pre)] at hq
            exact absurd hq (by simp)
      | ok b =>
        cases b
        · have hrule : multibaseRule (q :: rest) = multibaseRule rest := by
            simp [multibaseRule, multibaseSome, hstep]
          rw [hrule, ih]
          constructor
          · rintro ⟨pre, p, post, rfl, hgood, hpre⟩
            refine ⟨q :: pre, p, post, rfl, hgood, ?_⟩
            intro x hx
            rcases List.mem_cons.mp hx with rfl | hx'
            · exact isStr_of_step_ok x false hstep
            · exact hpre x hx'
          · rintro ⟨pre, p, post, hsplit, hgood, hpre⟩
            rcases pre with - | ⟨a, pre⟩
            · rw [List.nil_append] at hsplit
              injection hsplit with h1 h2
              subst h1
              rw [goodPV_of_step_ok q false hstep] at hgood
              exact absurd hgood (by simp)
            · rw [List.cons_append] at hsplit
              injection hsplit with h1 h2
              subst h2
              exact ⟨pre, p, post, rfl, hgood,
                fun x hx => hpre x (List.mem_cons_of_mem a hx)⟩
        · have hrule : multibaseRule (q :: rest) = .pass := by
            simp [multibaseRule, multibaseSome, hstep]
          rw [hrule]
          simp only [true_iff]
          exact ⟨[], q, rest, rfl, goodPV_of_step_ok q true hstep,
            fun x hx => absurd hx (List.not_mem_nil x)⟩
  · intro s p hz hv
    rw [multibaseStep_eq, hv]
    simp [hz]

theorem multibaseRule_pass_iff_witness :
    multibaseRule [JSVal.obj [("proofValue", JSVal.str "zXY7")]] = .pass ∧
    multibaseStep (JSVal.obj [("proofValue", JSVal.str "1abc")]) = .ok false :=
  ⟨(multibaseRule_pass_iff.1 _).mpr
      ⟨[], JSVal.obj [("proofValue", JSVal.str "zXY7")], [], rfl, by decide,
        fun q hq => absurd hq (List.not_mem_nil q)⟩,
    multibaseRule_pass_iff.2 "1abc" (JSVal.obj [("proofValue", JSVal.str "1abc")])
      (by decide) rfl⟩

/-- C6 counterexample: the source regex is compiled with the `'i'` flag,
so the lowercase separator `'t'` is accepted: the created rule passes
`"2023-05-01t12:00:00Z"`, a string that is not of the claimed form with
a literal uppercase `T` separator, refuting "accepts exactly". -/
theorem createdRule_counterexample :
    createdRule [JSVal.obj [("created", JSVal.str "2023-05-01t12:00:00Z")]] =
      .pass ∧
    ¬ createdSpec true "2023-05-01t12:00:00Z" := by
  constructor
  · decide
  · rintro ⟨y1, y2, y3, y4, m1, m2, d1, d2, t, h1, h2, i1, i2, e1, e2, fr, zs,
      hdata, -, -, -, -, -, -, -, -, -, -, -, -, ht,
      -, -, -, -, -, -, -, -, -, -, -⟩
    have h0 : ("2023-05-01t12:00:00Z").data =
        ['2', '0', '2', '3', '-', '0', '5', '-', '0', '1', 't',
         '1', '2', ':', '0', '0', ':', '0', '0', 'Z'] := rfl
    rw [h0] at hdata
    simp only [List.cons.injEq] at hdata
    obtain ⟨-, -, -, -, -, -, -, -, -, -, ht10, -⟩ := hdata
    rcases ht with h | ⟨hn, -⟩
    · rw [h] at ht10
      exact absurd ht10 (by decide)
    · exact hn rfl

/-- C6 amended: the created-datetime rule accepts exactly the strings of
the form `YYYY-MM-DDTHH:MM:SS` with a 4-digit year, month 01-12, day
01-31, a seconds field allowing the leap-second value 60, an optional
fractional-seconds part, and a mandatory zone of either `Z` or
`±HH:MM` — with the `T` separator and `Z` designator matched
case-insensitively (the regex carries the `'i'` flag); in particular
every string with no `T`/`t` separator at all, and every string whose
first two characters are followed by `'-'` (a 2-digit year), is
rejected. -/
theorem createdRule_pass_iff :
    (∀ s : String,
      createdRule [JSVal.obj [("created", JSVal.str s)]] = .pass ↔
        createdSpec false s) ∧
    (∀ s : String, (∀ c ∈ s.data, c ≠ 'T' ∧ c ≠ 't') →
      dateRegexMatch s = false) ∧
    (∀ (s : String) (a b : Char) (rest : List Char),
      s.data = a :: b :: '-' :: rest → dateRegexMatch s = false) := by
  refine ⟨fun s => ?_, fun s hs => ?_, fun s a b rest hdata => ?_⟩
  · have hstep : createdRule [JSVal.obj [("created", JSVal.str s)]] =
        if dateRegexMatch s then .pass
        else .assertFail "Expected created to match the datetime regular expression." :=
      rfl
    rw [hstep]
    constructor
    · intro h
      have hd : dateRegexMatch s = true := by
        by_contra hd
        rw [Bool.not_eq_true] at hd
        rw [hd] at h
        exact absurd h (by simp)
      exact (dateRegexMatch_iff s).mp hd
    · intro hspec
      rw [(dateRegexMatch_iff s).mpr hspec]
      rfl
  · by_contra hm
    rw [Bool.not_eq_false] at hm
    obtain ⟨y1, y2, y3, y4, m1, m2, d1, d2, t, h1, h2, i1, i2, e1, e2, fr, zs,
      hdata, -, -, -, -, -, -, -, -, -, -, -, -, ht,
      -, -, -, -, -, -, -, -, -, -, -⟩ := (dateRegexMatch_iff s).mp hm
    have htmem : t ∈ s.data := by
      rw [hdata]
      simp
    rcases ht with rfl | ⟨-, rfl⟩
    · exact (hs _ htmem).1 rfl
    · exact (hs _ htmem).2 rfl
  · by_contra hm
    rw [Bool.not_eq_false] at hm
    obtain ⟨y1, y2, y3, y4, m1, m2, d1, d2, t, h1, h2, i1, i2, e1, e2, fr, zs,
      hdata2, -, -, hy3, -⟩ := (dateRegexMatch_iff s).mp hm
    rw [hdata] at hdata2
    injection hdata2 with f1 hdata2
    injection hdata2 with f2 hdata2
    injection hdata2 with f3 hdata2
    rw [← f3] at hy3
    exact absurd hy3 (by unfold digitChar; decide)

theorem optionalRules_skip_empty_strings_witness :
    idRule (fun _ => false) [JSVal.obj [("id", JSVal.str "")]] = .pass ∧
    domainRule [JSVal.obj [("domain", JSVal.str "")]] = .pass ∧
    challengeRule [JSVal.obj [("challenge", JSVal.str ""), ("x", JSVal.num 1)]] =
      .pass :=
  ⟨optionalRules_skip_empty_strings.1 _ _
      (fun p hp => by rw [List.mem_singleton.mp hp]; rfl),
    optionalRules_skip_empty_strings.2.1 _
      (fun p hp => by rw [List.mem_singleton.mp hp]; rfl),
    optionalRules_skip_empty_strings.2.2 _
      (fun p hp => by rw [List.mem_singleton.mp hp]; rfl)⟩

/-! ## Part 2: the fixture generator of `src/vc-generator/index.js` -/

/-- Primitive JS values in the generator model. -/
inductive GPrim where
  | str : String → GPrim
  | num : Int → GPrim
  | bool : Bool → GPrim
  | null : GPrim

mutual
/-- A JavaScript object-graph value: primitives, object nodes and array
nodes. Every object/array node carries its identity (a heap address) so
that cloning, aliasing and in-place mutation are expressible. -/
inductive JVal where
  | leaf : GPrim → JVal
  | node : Nat → JFields → JVal
  | anode : Nat → JItems → JVal
/-- Fields of an object node, in property order. -/
inductive JFields where
  | nil : JFields
  | fcons : String → JVal → JFields → JFields
/-- Elements of an array node. -/
inductive JItems where
  | inil : JItems
  | icons : JVal → JItems → JItems
end

mutual
/-- Identity-erased value trees: the structural content of a `JVal`,
which is what "deep equality" compares. -/
inductive ETree where
  | leaf : GPrim → ETree
  | eobj : EFields → ETree
  | earr : EItems → ETree
inductive EFields where
  | nil : EFields
  | fcons : String → ETree → EFields → EFields
inductive EItems where
  | inil : EItems
  | icons : ETree → EItems → EItems
end

mutual
/-- Erase node identities, keeping the structure. -/
def erase : JVal → ETree
  | .leaf p => .leaf p
  | .node _ fs => .eobj (eraseF fs)
  | .anode _ es => .earr (eraseI es)
def eraseF : JFields → EFields
  | .nil => .nil
  | .fcons k v rest => .fcons k (erase v) (eraseF rest)
def eraseI : JItems → EItems
  | .inil => .inil
  | .icons v rest => .icons (erase v) (eraseI rest)
end

mutual
/-- Materialise a tree as a fresh object graph: every node receives a
new identity, starting from `n`; returns the value and the next unused
identity. -/
def labelE : ETree → Nat → JVal × Nat
  | .leaf p, n => (.leaf p, n)
  | .eobj fs, n =>
    let q := labelF fs (n + 1)
    (.node n q.1, q.2)
  | .earr es, n =>
    let q := labelI es (n + 1)
    (.anode n q.1, q.2)
def labelF : EFields → Nat → JFields × Nat
  | .nil, n => (.nil, n)
  | .fcons k t rest, n =>
    let p := labelE t n
    let q := labelF rest p.2
    (.fcons k p.1 q.1, q.2)
def labelI : EItems → Nat → JItems × Nat
  | .inil, n => (.inil, n)
  | .icons t rest, n =>
    let p := labelE t n
    let q := labelI rest p.2
    (.icons p.1 q.1, q.2)
end

/-- The `klona` dependency: a deep clone is structurally identical to
the input but consists entirely of freshly allocated nodes (`klona`
copies structurally and does not preserve internal sharing). -/
def klona (v : JVal) (n : Nat) : JVal × Nat := labelE (erase v) n

mutual
/-- All node identities occurring in a value. -/
def idsOf : JVal → List Nat
  | .leaf _ => []
  | .node i fs => i :: idsF fs
  | .anode i es => i :: idsI es
def idsF : JFields → List Nat
  | .nil => []
  | .fcons _ v rest => idsOf v ++ idsF rest
def idsI : JItems → List Nat
  | .inil => []
  | .icons v rest => idsOf v ++ idsI rest
end

/-- JS property write on an object's field list: overwrite in place, or
append the new property at the end. -/
def setFAssoc (k : String) (w : JVal) : JFields → JFields
  | .nil => .fcons k w .nil
  | .fcons k' v rest =>
    if k' = k then .fcons k w rest else .fcons k' v (setFAssoc k w rest)

/-- The same write on erased field lists. -/
def setEAssoc (k : String) (w : ETree) : EFields → EFields
  | .nil => .fcons k w .nil
  | .fcons k' v rest =>
    if k' = k then .fcons k w rest else .fcons k' v (setEAssoc k w rest)

mutual
/-- The effect of the JS statement `x[k] = w`, where `x` refers to the
node with identity `a`, on an arbitrary live value: every occurrence of
node `a` (aliasing!) gets the field update; other nodes are untouched.
(A string-keyed property on an array object is not modelled.) -/
def setFieldAt (a : Nat) (k : String) (w : JVal) : JVal → JVal
  | .leaf p => .leaf p
  | .node i fs =>
    if i = a then .node i (setFAssoc k w (setFieldAtF a k w fs))
    else .node i (setFieldAtF a k w fs)
  | .anode i es => .anode i (setFieldAtI a k w es)
def setFieldAtF (a : Nat) (k : String) (w : JVal) : JFields → JFields
  | .nil => .nil
  | .fcons k' v rest => .fcons k' (setFieldAt a k w v) (setFieldAtF a k w rest)
def setFieldAtI (a : Nat) (k : String) (w : JVal) : JItems → JItems
  | .inil => .inil
  | .icons v rest => .icons (setFieldAt a k w v) (setFieldAtI a k w rest)
end

/-- The identity of a value's root node, when it is an object or array. -/
def rootOf : JVal → Option Nat
  | .leaf _ => none
  | .node i _ => some i
  | .anode i _ => some i

mutual
theorem erase_labelE (t : ETree) (n : Nat) : erase (labelE t n).1 = t := by
  cases t with
  | leaf p => rfl
  | eobj fs => simp [labelE, erase, eraseF_labelF fs (n + 1)]
  | earr es => simp [labelE, erase, eraseI_labelI es (n + 1)]
theorem eraseF_labelF (fs : EFields) (n : Nat) : eraseF (labelF fs n).1 = fs := by
  cases fs with
  | nil => rfl
  | fcons k t rest =>
    simp [labelF, eraseF, erase_labelE t n, eraseF_labelF rest (labelE t n).2]
theorem eraseI_labelI (es : EItems) (n : Nat) : eraseI (labelI es n).1 = es := by
  cases es with
  | inil => rfl
  | icons t rest =>
    simp [labelI, eraseI, erase_labelE t n, eraseI_labelI rest (labelE t n).2]
end

mutual
theorem labelE_mono (t : ETree) (n : Nat) : n ≤ (labelE t n).2 := by
  cases t with
  | leaf p => exact Nat.le_refl n
  | eobj fs =>
    simp only [labelE]
    exact Nat.le_trans (Nat.le_succ n) (labelF_mono fs (n + 1))
  | earr es =>
    simp only [labelE]
    exact Nat.le_trans (Nat.le_succ n) (labelI_mono es (n + 1))
theorem labelF_mono (fs : EFields) (n : Nat) : n ≤ (labelF fs n).2 := by
  cases fs with
  | nil => exact Nat.le_refl n
  | fcons k t rest =>
    simp only [labelF]
    exact Nat.le_trans (labelE_mono t n) (labelF_mono rest (labelE t n).2)
theorem labelI_mono (es : EItems) (n : Nat) : n ≤ (labelI es n).2 := by
  cases es with
  | inil => exact Nat.le_refl n
  | icons t rest =>
    simp only [labelI]
    exact Nat.le_trans (labelE_mono t n) (labelI_mono rest (labelE t n).2)
end

mutual
theorem labelE_ids_ge (t : ETree) (n : Nat) :
    ∀ i ∈ idsOf (labelE t n).1, n ≤ i := by
  cases t with
  | leaf p => intro i hi; simp [labelE, idsOf] at hi
  | eobj fs =>
    intro i hi
    simp only [labelE, idsOf, List.mem_cons] at hi
    rcases hi with rfl | hi
    · exact Nat.le_refl i
    · exact Nat.le_trans (Nat.le_succ n) (labelF_ids_ge fs (n + 1) i hi)
  | earr es =>
    intro i hi
    simp only [labelE, idsOf, List.mem_cons] at hi
    rcases hi with rfl | hi
    · exact Nat.le_refl i
    · exact Nat.le_trans (Nat.le_succ n) (labelI_ids_ge es (n + 1) i hi)
theorem labelF_ids_ge (fs : EFields) (n : Nat) :
    ∀ i ∈ idsF (labelF fs n).1, n ≤ i := by
  cases fs with
  | nil => intro i hi; simp [labelF, idsF] at hi
  | fcons k t rest =>
    intro i hi
    simp only [labelF, idsF, List.mem_append] at hi
    rcases hi with hi | hi
    · exact labelE_ids_ge t n i hi
    · exact Nat.le_trans (labelE_mono t n)
        (labelF_ids_ge rest (labelE t n).2 i hi)
theorem labelI_ids_ge (es : EItems) (n : Nat) :
    ∀ i ∈ idsI (labelI es n).1, n ≤ i := by
  cases es with
  | inil => intro i hi; simp [labelI, idsI] at hi
  | icons t rest =>
    intro i hi
    simp only [labelI, idsI, List.mem_append] at hi
    rcases hi with hi | hi
    · exact labelE_ids_ge t n i hi
    · exact Nat.le_trans (labelE_mono t n)
        (labelI_ids_ge rest (labelE t n).2 i hi)
end

mutual
theorem setFieldAt_not_mem (a : Nat) (k : String) (w : JVal) (v : JVal)
    (h : a ∉ idsOf v) : setFieldAt a k w v = v := by
  cases v with
  | leaf p => rfl
  | node i fs =>
    have hia : i ≠ a := by
      intro hia
      exact h (hia ▸ List.mem_cons_self i (idsF fs))
    have hfs : a ∉ idsF fs := by
      intro hfs
      exact h (List.mem_cons_of_mem i hfs)
    simp [setFieldAt, hia, setFieldAtF_not_mem a k w fs hfs]
  | anode i es =>
    have hes : a ∉ idsI es := by
      intro hes
      exact h (List.mem_cons_of_mem i hes)
    simp [setFieldAt, setFieldAtI_not_mem a k w es hes]
theorem setFieldAtF_not_mem (a : Nat) (k : String) (w : JVal) (fs : JFields)
    (h : a ∉ idsF fs) : setFieldAtF a k w fs = fs := by
  cases fs with
  | nil => rfl
  | fcons k' v rest =>
    have hv : a ∉ idsOf v := by
      intro hv
      exact h (by simp [idsF, hv])
    have hrest : a ∉ idsF rest := by
      intro hrest
      exact h (by simp [idsF, hrest])
    simp [setFieldAtF, setFieldAt_not_mem a k w v hv,
      setFieldAtF_not_mem a k w rest hrest]
theorem setFieldAtI_not_mem (a : Nat) (k : String) (w : JVal) (es : JItems)
    (h : a ∉ idsI es) : setFieldAtI a k w es = es := by
  cases es with
  | inil => rfl
  | icons v rest =>
    have hv : a ∉ idsOf v := by
      intro hv
      exact h (by simp [idsI, hv])
    have hrest : a ∉ idsI rest := by
      intro hrest
      exact h (by simp [idsI, hrest])
    simp [setFieldAtI, setFieldAt_not_mem a k w v hv,
      setFieldAtI_not_mem a k w rest hrest]
end

theorem eraseF_setFAssoc (k : String) (w : JVal) (fs : JFields) :
    eraseF (setFAssoc k w fs) = setEAssoc k (erase w) (eraseF fs) := by
  cases fs with
  | nil => rfl
  | fcons k' v rest =>
    by_cases hk : k' = k
    · simp [setFAssoc, setEAssoc, eraseF, hk]
    · simp [setFAssoc, setEAssoc, eraseF, hk, eraseF_setFAssoc k w rest]

/-- A registered generator. Modelled from the spec: `getGenerators` and
`issueCloned` live in `generators.js`, and `getSuites` in
`cryptosuite.js`, none of which are under `src/`. Per spec section 4.2 a
generator is "pure and side-effect-free except for reading
`context.credential`/`context.suite`", so it is a pure function of the
credential's structural content (the suite objects built per iteration
by `getSuites` are absorbed into the function); a thrown error or
rejected promise is the `Except.error` case. -/
def Gen : Type := ETree → Except String ETree

/-- The module-level `vcCache` (a `Map` of per-suite `Map`s) together
with the next fresh node identity of the object heap. -/
structure GTState where
  cache : List (String × List (String × JVal))
  n : Nat

/-- Generic association-list overwrite with JS `Map.set` semantics:
overwrite in place, or append at the end. -/
def setAssoc {α : Type} (k : String) (v : α) : List (String × α) → List (String × α)
  | [] => [(k, v)]
  | (k', v') :: rest =>
    if k' = k then (k, v) :: rest else (k', v') :: setAssoc k v rest

/-- Result of the generator loop of `generateTestData` (src lines
58-69): the per-suite map after the loop, the next fresh identity, the
ids of the generators that were invoked (in order), and whether the loop
completed or rethrew a generator's error. -/
structure RunOut where
  map : List (String × JVal)
  n : Nat
  invoked : List String
  result : Except String Unit

/-- The loop `for(const [id, generator] of vcGenerators) { ... }` of
`generateTestData`: each iteration invokes the generator on the (erased)
credential, materialises the issued artifact (`issueCloned`) as fresh
nodes, and stores it in the per-suite map; a generator failure aborts
the loop, leaving earlier writes in place. -/
def runGens (credE : ETree) :
    List (String × Gen) → List (String × JVal) → Nat → RunOut
  | [], m, n => ⟨m, n, [], .ok ()⟩
  | (id, g) :: rest, m, n =>
    match g credE with
    | .error e => ⟨m, n, [id], .error e⟩
    | .ok t =>
      let p := labelE t n
      let r := runGens credE rest (setAssoc id p.1 m) p.2
      ⟨r.map, r.n, id :: r.invoked, r.result⟩

/-- Modelled from the spec: the canonical valid credential template
`validVc` (`validVc.js` is not under `src/`): a credential document with
context, issuer and credentialSubject fields. Its exact shape is
irrelevant to the claims. -/
def validVcE : ETree :=
  .eobj (.fcons "@context"
      (.earr (.icons (.leaf (.str "https://www.w3.org/2018/credentials/v1")) .inil))
    (.fcons "issuer" (.leaf (.str "https://vc.example/issuers/5678"))
    (.fcons "credentialSubject"
      (.eobj (.fcons "id" (.leaf (.str "did:example:subject")) .nil)) .nil)))

/-- `_initCache()` (src lines 13-15): a fresh per-suite map seeded with
`['validVc', klona(validVc)]`. -/
def initCache (n : Nat) : List (String × JVal) × Nat :=
  let p := labelE validVcE n
  ([("validVc", p.1)], p.2)

/-- Lines 51-53: `if(!vcCache.get(suiteName)) vcCache.set(suiteName,
_initCache())` — only the per-suite map's absence triggers seeding. -/
def ensureSuite (suite : String) (st : GTState) : GTState :=
  match alookup suite st.cache with
  | some _ => st
  | none =>
    let p := initCache st.n
    ⟨setAssoc suite p.1 st.cache, p.2⟩

/-- Lines 54-55: `const credential = klona(testVector);
credential.issuer = key.controller;` — the clone, the next fresh
identity, and the identities of the nodes mutated in place by the
issuer assignment. (Assigning a property to a primitive is a silent
no-op; on an array node the string-keyed property is not modelled but
its identity is still recorded as mutated.) -/
def mkCredential (tv : JVal) (controller : String) (n : Nat) :
    JVal × Nat × List Nat :=
  let p := labelE (erase tv) n
  match p.1 with
  | .node r fs =>
    (setFieldAt r "issuer" (.leaf (.str controller)) (.node r fs), p.2, [r])
  | .anode r es => (.anode r es, p.2, [r])
  | .leaf q => (.leaf q, p.2, [])

/-- Result of a `generateTestData` call: the final cache state, the
invoked generator ids, the node identities mutated in place, and the
call's success or propagated generator error. -/
structure GTOut where
  state : GTState
  invoked : List String
  mutated : List Nat
  result : Except String Unit

/-- `generateTestData` (src/vc-generator/index.js lines 37-75). The
`key` option and `getDefaultKey` fallback are absorbed into
`controller` (`key.controller`, the only key component the cache-visible
data depends on); the cryptosuite/pointer/verify options are absorbed
into each generator's closure (see `Gen`). -/
def generateTestData (gens : List (String × Gen)) (suite : String)
    (tv : JVal) (controller : String) (st : GTState) : GTOut :=
  let st1 := ensureSuite suite st
  let mc := mkCredential tv controller st1.n
  let m0 := (alookup suite st1.cache).getD []
  let r := runGens (erase mc.1) gens m0 mc.2.1
  ⟨⟨setAssoc suite r.map st1.cache, r.n⟩, r.invoked, mc.2.2, r.result⟩

/-- Lines 70-74: the returned accessor's
`clone(key) { return klona(vcCache.get(suiteName).get(key)); }`
(`klona(undefined)` for an absent entry is modelled as `none`). -/
def accessorClone (st : GTState) (suite id : String) : Option (JVal × Nat) :=
  match alookup suite st.cache with
  | none => none
  | some m =>
    match alookup id m with
    | none => none
    | some v => some (klona v st.n)

theorem alookup_setAssoc {α : Type} (k j : String) (v : α)
    (m : List (String × α)) :
    alookup j (setAssoc k v m) = if k = j then some v else alookup j m := by
  induction m with
  | nil => simp [setAssoc, alookup]
  | cons p rest ih =>
    obtain ⟨k', v'⟩ := p
    by_cases hk : k' = k
    · subst hk
      by_cases hj : k' = j <;> simp [setAssoc, alookup, hj]
    · by_cases hj : k' = j
      · subst hj
        have hkj : ¬ k = k' := fun h => hk h.symm
        simp [setAssoc, alookup, hk, hkj]
      · simp [setAssoc, alookup, hk, hj, ih]

theorem alookup_setAssoc_self {α : Type} (k : String) (v : α)
    (m : List (String × α)) : alookup k (setAssoc k v m) = some v := by
  rw [alookup_setAssoc]
  simp

/-- The control behaviour of the generator loop (which generators get
invoked, and the final success/error) depends only on the generator list
and the credential content, not on the cache map or the identity
counter. -/
def genCtrl (c : ETree) : List (String × Gen) → List String × Except String Unit
  | [] => ([], .ok ())
  | (id, g) :: rest =>
    match g c with
    | .error e => ([id], .error e)
    | .ok _ => (id :: (genCtrl c rest).1, (genCtrl c rest).2)

theorem runGens_ctrl (c : ETree) (gens : List (String × Gen))
    (m : List (String × JVal)) (n : Nat) :
    (runGens c gens m n).invoked = (genCtrl c gens).1 ∧
    (runGens c gens m n).result = (genCtrl c gens).2 := by
  induction gens generalizing m n with
  | nil => exact ⟨rfl, rfl⟩
  | cons p rest ih =>
    obtain ⟨id, g⟩ := p
    cases hg : g c with
    | error e => simp [runGens, genCtrl, hg]
    | ok t =>
      simp only [runGens, genCtrl, hg]
      exact ⟨by rw [(ih _ _).1], (ih _ _).2⟩

/-- The erased content of the last write the loop performs for a given
generator id before stopping (successfully or at the first error). -/
def finalUpd (c : ETree) : List (String × Gen) → String → Option ETree
  | [], _ => none
  | (k, g) :: rest, id =>
    match g c with
    | .error _ => none
    | .ok t =>
      match finalUpd c rest id with
      | some u => some u
      | none => if k = id then some t else none

theorem runGens_lookup (c : ETree) (gens : List (String × Gen)) (id : String)
    (m : List (String × JVal)) (n : Nat) :
    (alookup id (runGens c gens m n).map).map erase =
      (match finalUpd c gens id with
        | some u => some u
        | none => (alookup id m).map erase) := by
  induction gens generalizing m n with
  | nil => rfl
  | cons p rest ih =>
    obtain ⟨k, g⟩ := p
    cases hg : g c with
    | error e => simp [runGens, finalUpd, hg]
    | ok t =>
      simp only [runGens, finalUpd, hg]
      rw [ih]
      cases hfu : finalUpd c rest id with
      | some u => rfl
      | none =>
        rw [alookup_setAssoc]
        by_cases hk : k = id
        · simp [hk, erase_labelE]
        · simp [hk]

/-- The structural content of the credential handed to every generator:
the erased template with its `issuer` field set to the key's
controller. It depends only on the template and the controller, not on
the identity counter — this is what makes repeated calls
value-idempotent. -/
def credES (tv : JVal) (controller : String) : ETree :=
  match erase tv with
  | .eobj fs => .eobj (setEAssoc "issuer" (.leaf (.str controller)) fs)
  | t => t

theorem erase_mkCredential (tv : JVal) (controller : String) (n : Nat) :
    erase (mkCredential tv controller n).1 = credES tv controller := by
  cases hv : erase tv with
  | leaf p => simp [mkCredential, hv, labelE, credES, erase]
  | eobj fs =>
    have hids : (n : Nat) ∉ idsF (labelF fs (n + 1)).1 := by
      intro hmem
      have := labelF_ids_ge fs (n + 1) n hmem
      omega
    simp [mkCredential, hv, labelE, setFieldAt,
      setFieldAtF_not_mem n "issuer" (.leaf (.str controller)) _ hids,
      erase, eraseF_setFAssoc, eraseF_labelF, credES]
  | earr es => simp [mkCredential, hv, labelE, erase, eraseI_labelI, credES]

theorem mkCredential_mutated (tv : JVal) (controller : String) (n : Nat) :
    ∀ a ∈ (mkCredential tv controller n).2.2, a = n := by
  cases hv : erase tv <;> simp [mkCredential, hv, labelE]

theorem ensureSuite_n_ge (suite : String) (st : GTState) :
    st.n ≤ (ensureSuite suite st).n := by
  unfold ensureSuite
  cases alookup suite st.cache with
  | some m => exact Nat.le_refl _
  | none =>
    simp only [initCache]
    exact labelE_mono validVcE st.n

theorem generateTestData_parts (gens : List (String × Gen)) (suite : String)
    (tv : JVal) (controller : String) (st : GTState) :
    (generateTestData gens suite tv controller st).state.cache =
      setAssoc suite (runGens (credES tv controller) gens
        ((alookup suite (ensureSuite suite st).cache).getD [])
        (mkCredential tv controller (ensureSuite suite st).n).2.1).map
        (ensureSuite suite st).cache ∧
    (generateTestData gens suite tv controller st).invoked =
      (genCtrl (credES tv controller) gens).1 ∧
    (generateTestData gens suite tv controller st).result =
      (genCtrl (credES tv controller) gens).2 := by
  simp only [generateTestData]
  rw [erase_mkCredential]
  exact ⟨rfl, (runGens_ctrl _ _ _ _).1, (runGens_ctrl _ _ _ _).2⟩

/-- A generator used in concrete instances: returns the credential it is
given, unchanged. -/
def demoGen : Gen := fun t => .ok t

/-- A generator used in concrete instances: always fails. -/
def demoBadGen : Gen := fun _ => .error "boom"

/-- A small credential template used in concrete instances. -/
def demoTv : JVal :=
  .node 0 (.fcons "credentialSubject" (.leaf (.str "x")) .nil)

/-- An initial cache state for concrete instances. -/
def st0 : GTState := ⟨[], 1⟩

/-- C1 counterexample: after a first `generateTestData` call has cached
an artifact for the pair `("eddsa-2022", "g1")`, a second call with the
same suite re-invokes the registered generator `g1` all the same —
`generateTestData` only check-then-skips the per-suite map seeding, not
the generator loop — refuting the claimed skip. -/
theorem generateTestData_reinvokes :
    (alookup "g1" ((alookup "eddsa-2022"
      (generateTestData [("g1", demoGen)] "eddsa-2022" demoTv "did:ex"
        st0).state.cache).getD [])).isSome = true ∧
    (generateTestData [("g1", demoGen)] "eddsa-2022" demoTv "did:ex"
      (generateTestData [("g1", demoGen)] "eddsa-2022" demoTv "did:ex"
        st0).state).invoked = ["g1"] :=
  ⟨rfl, rfl⟩

theorem ensureSuite_of_present (suite : String) (st : GTState)
    (m : List (String × JVal)) (h : alookup suite st.cache = some m) :
    ensureSuite suite st = st := by
  unfold ensureSuite
  rw [h]

/-- C1 amended: `generateTestData` re-invokes every registered generator
on each call (see the counterexample); however, since generators are
pure functions of the credential content — which depends only on the
template and controller, not on allocation state — a second call with
the same suite invokes exactly the same generators with the same
outcome and overwrites each cache entry with a structurally identical
artifact, so the cached values (up to node identity) are unchanged:
generation is idempotent in value, not in invocation. -/
theorem generateTestData_idempotent_value (gens : List (String × Gen))
    (suite : String) (tv : JVal) (controller : String) (st : GTState) :
    (generateTestData gens suite tv controller
        (generateTestData gens suite tv controller st).state).invoked =
      (generateTestData gens suite tv controller st).invoked ∧
    (generateTestData gens suite tv controller
        (generateTestData gens suite tv controller st).state).result =
      (generateTestData gens suite tv controller st).result ∧
    ∀ id : String,
      (alookup id ((alookup suite (generateTestData gens suite tv controller
        (generateTestData gens suite tv controller st).state).state.cache).getD
          [])).map erase =
        (alookup id ((alookup suite (generateTestData gens suite tv controller
          st).state.cache).getD [])).map erase := by
  obtain ⟨hc1, hi1, hr1⟩ := generateTestData_parts gens suite tv controller st
  obtain ⟨hc2, hi2, hr2⟩ := generateTestData_parts gens suite tv controller
    (generateTestData gens suite tv controller st).state
  refine ⟨by rw [hi1, hi2], by rw [hr1, hr2], fun id => ?_⟩
  set M1 := (runGens (credES tv controller) gens
      ((alookup suite (ensureSuite suite st).cache).getD [])
      (mkCredential tv controller (ensureSuite suite st).n).2.1).map with hM1
  have hsuite1 : alookup suite
      (generateTestData gens suite tv controller st).state.cache = some M1 := by
    rw [hc1]
    exact alookup_setAssoc_self suite M1 _
  have hens2 := ensureSuite_of_present suite
    (generateTestData gens suite tv controller st).state M1 hsuite1
  rw [hens2, hsuite1] at hc2
  rw [hc2, alookup_setAssoc_self, hsuite1]
  simp only [Option.getD_some]
  rw [runGens_lookup]
  cases hfu : finalUpd (credES tv controller) gens id with
  | some u =>
    rw [hM1, runGens_lookup, hfu]
  | none => rfl

/-- C2: `generateTestData` clones the template before assigning `issuer`
(src lines 54-55) and hands generators only the clone, so every node
identity it mutates in place is freshly allocated: given that the
template's nodes live below the allocation bound, replaying any of the
call's mutations against the template leaves it unchanged — the
template object is structurally untouched by the call. -/
theorem generateTestData_preserves_template (gens : List (String × Gen))
    (suite : String) (tv : JVal) (controller : String) (st : GTState)
    (hwf : ∀ i ∈ idsOf tv, i < st.n) :
    ∀ a ∈ (generateTestData gens suite tv controller st).mutated,
      a ∉ idsOf tv ∧ ∀ (k : String) (w : JVal), setFieldAt a k w tv = tv := by
  intro a ha
  have hmut : (generateTestData gens suite tv controller st).mutated =
      (mkCredential tv controller (ensureSuite suite st).n).2.2 := rfl
  rw [hmut] at ha
  have ha' := mkCredential_mutated tv controller (ensureSuite suite st).n a ha
  subst ha'
  have hge := ensureSuite_n_ge suite st
  have hnot : (ensureSuite suite st).n ∉ idsOf tv := by
    intro hmem
    have := hwf _ hmem
    omega
  exact ⟨hnot, fun k w => setFieldAt_not_mem _ k w tv hnot⟩

theorem generateTestData_preserves_template_witness :
    setFieldAt 3 "issuer" (JVal.leaf (GPrim.str "did:other")) demoTv = demoTv :=
  ((generateTestData_preserves_template [("g1", demoGen)] "eddsa-2022" demoTv
      "did:ex" ⟨[("eddsa-2022", [])], 3⟩ (by decide)) 3 (by decide)).2
    "issuer" (JVal.leaf (GPrim.str "did:other"))

/-- C3: the accessor's `clone(generatorId)` returns `klona` of the
cached artifact: a value that is deep-equal (identity-erased equal) to
the cached original, is not the same object (different root identity),
and consists entirely of fresh nodes, so mutating any node of the
returned clone leaves the cached original unchanged. -/
theorem accessorClone_isolates (st : GTState) (suite id : String)
    (m : List (String × JVal)) (r : Nat) (fs : JFields)
    (hsuite : alookup suite st.cache = some m)
    (hid : alookup id m = some (JVal.node r fs))
    (hwf : ∀ i ∈ idsOf (JVal.node r fs), i < st.n) :
    accessorClone st suite id = some (klona (JVal.node r fs) st.n) ∧
    erase (klona (JVal.node r fs) st.n).1 = erase (JVal.node r fs) ∧
    rootOf (klona (JVal.node r fs) st.n).1 ≠ rootOf (JVal.node r fs) ∧
    ∀ a ∈ idsOf (klona (JVal.node r fs) st.n).1, ∀ (k : String) (w : JVal),
      setFieldAt a k w (JVal.node r fs) = JVal.node r fs := by
  refine ⟨?_, erase_labelE _ _, ?_, ?_⟩
  · simp [accessorClone, hsuite, hid]
  · have hr : r < st.n := hwf r (List.mem_cons_self r (idsF fs))
    simp only [klona, erase, labelE, rootOf]
    intro hcon
    injection hcon with hcon'
    omega
  · intro a ha k w
    have hage : st.n ≤ a := labelE_ids_ge _ st.n a ha
    have hnot : a ∉ idsOf (JVal.node r fs) := by
      intro hmem
      have := hwf a hmem
      omega
    exact setFieldAt_not_mem a k w _ hnot

theorem accessorClone_isolates_witness :
    erase (klona demoTv 2).1 = erase demoTv ∧
    rootOf (klona demoTv 2).1 ≠ rootOf demoTv ∧
    setFieldAt 2 "issuer" (JVal.leaf (GPrim.str "y")) demoTv = demoTv := by
  obtain ⟨-, herase, hroot, hiso⟩ := accessorClone_isolates
    ⟨[("s", [("validVc", demoTv)])], 2⟩ "s" "validVc" [("validVc", demoTv)] 0
    (JFields.fcons "credentialSubject" (JVal.leaf (GPrim.str "x")) JFields.nil)
    rfl rfl (by decide)
  exact ⟨herase, hroot, hiso 2 (by decide) "issuer" (JVal.leaf (GPrim.str "y"))⟩

theorem genCtrl_error (c : ETree) (pre : List (String × Gen)) (bid : String)
    (bad : Gen) (post : List (String × Gen)) (e : String)
    (hpre : ∀ p ∈ pre, ∃ t, p.2 c = .ok t) (hbad : bad c = .error e) :
    (genCtrl c (pre ++ (bid, bad) :: post)).1 = pre.map Prod.fst ++ [bid] ∧
    (genCtrl c (pre ++ (bid, bad) :: post)).2 = .error e := by
  induction pre with
  | nil => simp [genCtrl, hbad]
  | cons p pre ih =>
    obtain ⟨k0, g0⟩ := p
    obtain ⟨t, ht⟩ := hpre _ (List.mem_cons_self _ _)
    simp only at ht
    have ih' := ih (fun q hq => hpre q (List.mem_cons_of_mem _ hq))
    simp [genCtrl, ht, ih'.1, ih'.2]

theorem runGens_isSome_mono (c : ETree) (gens : List (String × Gen))
    (id : String) (m : List (String × JVal)) (n : Nat)
    (h : (alookup id m).isSome = true) :
    (alookup id (runGens c gens m n).map).isSome = true := by
  have hl := congrArg Option.isSome (runGens_lookup c gens id m n)
  rw [Option.isSome_map'] at hl
  cases hfu : finalUpd c gens id with
  | some u =>
    simp only [hfu] at hl
    exact hl
  | none =>
    simp only [hfu, Option.isSome_map'] at hl
    rw [hl]
    exact h

theorem runGens_pre_writes (c : ETree) (pre gens2 : List (String × Gen))
    (m : List (String × JVal)) (n : Nat)
    (hpre : ∀ p ∈ pre, ∃ t, p.2 c = .ok t) :
    ∀ k ∈ pre.map Prod.fst,
      (alookup k (runGens c (pre ++ gens2) m n).map).isSome = true := by
  induction pre generalizing m n with
  | nil => simp
  | cons p pre ih =>
    obtain ⟨k0, g0⟩ := p
    obtain ⟨t, ht⟩ := hpre _ (List.mem_cons_self _ _)
    simp only at ht
    intro k hk
    simp only [List.cons_append, runGens, ht]
    rw [List.map_cons] at hk
    rcases List.mem_cons.mp hk with rfl | hk'
    · exact runGens_isSome_mono c (pre ++ gens2) k _ _
        (by rw [alookup_setAssoc_self]; rfl)
    · exact ih _ _ (fun q hq => hpre q (List.mem_cons_of_mem _ hq)) k hk'

/-- C8: if a generator (or its issuance) fails for some id, the whole
`generateTestData` call rejects with that error, the generators later in
registry order are never invoked (the invocation list stops at the
failing id), and every cache entry written for earlier generator ids in
the same call remains in the per-suite cache map — no rollback. -/
theorem generateTestData_error_propagates (pre : List (String × Gen))
    (bid : String) (bad : Gen) (post : List (String × Gen)) (suite : String)
    (tv : JVal) (controller : String) (st : GTState) (e : String)
    (hpre : ∀ p ∈ pre, ∃ t, p.2 (credES tv controller) = .ok t)
    (hbad : bad (credES tv controller) = .error e) :
    (generateTestData (pre ++ (bid, bad) :: post) suite tv controller
      st).result = .error e ∧
    (generateTestData (pre ++ (bid, bad) :: post) suite tv controller
      st).invoked = pre.map Prod.fst ++ [bid] ∧
    ∀ k ∈ pre.map Prod.fst,
      (alookup k ((alookup suite (generateTestData (pre ++ (bid, bad) :: post)
        suite tv controller st).state.cache).getD [])).isSome = true := by
  obtain ⟨hcache, hinv, hres⟩ :=
    generateTestData_parts (pre ++ (bid, bad) :: post) suite tv controller st
  obtain ⟨hg1, hg2⟩ := genCtrl_error (credES tv controller) pre bid bad post e
    hpre hbad
  refine ⟨by rw [hres, hg2], by rw [hinv, hg1], fun k hk => ?_⟩
  rw [hcache, alookup_setAssoc_self]
  simp only [Option.getD_some]
  exact runGens_pre_writes (credES tv controller) pre ((bid, bad) :: post)
    _ _ hpre k hk

theorem generateTestData_error_witness :
    (generateTestData [("a", demoGen), ("b", demoBadGen), ("c", demoGen)]
      "s" demoTv "did:ex" st0).result = .error "boom" ∧
    (generateTestData [("a", demoGen), ("b", demoBadGen), ("c", demoGen)]
      "s" demoTv "did:ex" st0).invoked = ["a", "b"] ∧
    (alookup "a" ((alookup "s"
      (generateTestData [("a", demoGen), ("b", demoBadGen), ("c", demoGen)]
        "s" demoTv "did:ex" st0).state.cache).getD [])).isSome = true := by
  obtain ⟨h1, h2, h3⟩ := generateTestData_error_propagates [("a", demoGen)]
    "b" demoBadGen [("c", demoGen)] "s" demoTv "did:ex" st0 "boom"
    (by
      intro p hp
      rw [List.mem_singleton.mp hp]
      exact ⟨_, rfl⟩)
    rfl
  exact ⟨h1, h2, h3 "a" (by decide)⟩
